import Mathlib

/-!
Verification of the Godis repository core: the sharded concurrent dictionary
(`datastruct/dict/concurrent.go`), the RESP protocol decoder (`parser`), and
the echo connection handler (`tcp/app_server.go`).  Each Go function is
shallowly embedded as an executable Lean definition; machine integers are
modelled as `Int`/`Nat` with explicit wrapping where overflow matters.
Go strings and byte slices are modelled as `List Nat` (one `Nat` per byte);
panics are modelled as `Except.error`; the decoder's output channel is
modelled as the list of payloads sent on it, in order.
-/

namespace Godis

/-- A byte of a Go string / byte slice (value below 256 in every real input). -/
abbrev Byte := Nat

/-- A Go map key (Go `string`), as its byte sequence. -/
abbrev Key := List Byte

/-! ## Association-list model of Go's `map[string]interface{}` -/

/-- Lookup in an association list, the model of Go `m[key]`. -/
def lookupA {V : Type} : List (Key × V) → Key → Option V
  | [], _ => none
  | (k, v) :: t, key => if k = key then some v else lookupA t key

/-- Insert-or-replace, the model of Go `m[key] = val`. -/
def insertA {V : Type} : List (Key × V) → Key → V → List (Key × V)
  | [], key, val => [(key, val)]
  | (k, v) :: t, key, val =>
    if k = key then (key, val) :: t else (k, v) :: insertA t key val

/-- Deletion, the model of Go `delete(m, key)`. -/
def eraseA {V : Type} : List (Key × V) → Key → List (Key × V)
  | [], _ => []
  | (k, v) :: t, key => if k = key then t else (k, v) :: eraseA t key

/-! ## `concurrent.go`: the sharded dictionary -/

/-- One shard: `type Shard struct { m map[string]interface{}; mutex sync.RWMutex }`.
The mutex is irrelevant to the sequential semantics and is not modelled. -/
structure Shard (V : Type) where
  m : List (Key × V)
deriving DecidableEq

/-- `type ConcurrentDict struct { table []*Shard; count int32; shardCount int }`. -/
structure ConcurrentDict (V : Type) where
  table : List (Shard V)
  count : Int
  shardCount : Int
deriving DecidableEq

/-- Interpret a natural number as Go's wrapping signed 32-bit value
(`int32` arithmetic): the representative in `[-2^31, 2^31)`. -/
def wrap32 (x : Int) : Int := (x + 2 ^ 31) % 2 ^ 32 - 2 ^ 31

/-- Interpret a natural number as Go's signed 64-bit value (two's complement). -/
def toInt64 (m : Nat) : Int :=
  if m % 2 ^ 64 < 2 ^ 63 then ((m % 2 ^ 64 : Nat) : Int)
  else ((m % 2 ^ 64 : Nat) : Int) - 2 ^ 64

/-- The bit-smearing steps of `computeCapacity`:
`n |= n>>1; n |= n>>2; n |= n>>4; n |= n>>8; n |= n>>16`. -/
def smear (n0 : Nat) : Nat :=
  let n1 := n0 ||| (n0 >>> 1)
  let n2 := n1 ||| (n1 >>> 2)
  let n3 := n2 ||| (n2 >>> 4)
  let n4 := n3 ||| (n3 >>> 8)
  n4 ||| (n4 >>> 16)

/-- `computeCapacity(param int) int`: `if param <= 16 { return 16 }`, then smear
`n := param - 1`, `if n < 0 { return math.MaxInt32 }`, `return n + 1`.
Go `int` is 64-bit; the final increment is wrapped through `toInt64`. -/
def computeCapacity (param : Int) : Int :=
  if param ≤ 16 then 16
  else
    if toInt64 (smear (param - 1).toNat) < 0 then 2147483647
    else toInt64 (smear (param - 1).toNat + 1)

/-- `MakeConcurrent(shardCount int) *ConcurrentDict`; the `nil` result for
`shardCount <= 0` is `none`. -/
def MakeConcurrent (V : Type) (shardCount : Int) : Option (ConcurrentDict V) :=
  if shardCount ≤ 0 then none
  else if shardCount = 1 then some ⟨[⟨[]⟩], 0, shardCount⟩
  else
    some ⟨List.replicate (computeCapacity shardCount).toNat ⟨[]⟩, 0,
      computeCapacity shardCount⟩

/-- `const prime32 = uint32(16777619)`. -/
def prime32 : Nat := 16777619

/-- `fnv32(key string) uint32`: FNV-style hash with 32-bit wrapping. -/
def fnv32 (key : Key) : Nat :=
  key.foldl (fun hash b => (hash * prime32 % 2 ^ 32) ^^^ b % 2 ^ 32) 2166136261

/-- `(*ConcurrentDict).spread(key string) uint32` (the non-nil branch):
`if len(dict.table) == 0 { return 0 }; return fnv32(key) & (len(table)-1)`. -/
def ConcurrentDict.spread {V : Type} (dict : ConcurrentDict V) (key : Key) : Nat :=
  if dict.table.length = 0 then 0
  else fnv32 key &&& (dict.table.length - 1)

/-- `(*ConcurrentDict).getShard(index uint32) *Shard`: `dict.table[index]`.
The index is always in bounds for dictionaries built by `MakeConcurrent`
(it is masked by `len(table)-1`); out of bounds would panic in Go and is
given the empty shard as a default here. -/
def ConcurrentDict.getShard {V : Type} (dict : ConcurrentDict V) (index : Nat) : Shard V :=
  dict.table.getD index ⟨[]⟩

/-- Replace shard `index` of the table (the effect of mutating `shard.m`). -/
def ConcurrentDict.setShard {V : Type} (dict : ConcurrentDict V) (index : Nat)
    (s : Shard V) : ConcurrentDict V :=
  { dict with table := dict.table.set index s }

/-- `addCount`: `atomic.AddInt32(&dict.count, 1)` with `int32` wrapping. -/
def ConcurrentDict.addCount {V : Type} (dict : ConcurrentDict V) : ConcurrentDict V :=
  { dict with count := wrap32 (dict.count + 1) }

/-- `decreaseCount`: `atomic.AddInt32(&dict.count, -1)`.  Mirrored from the
source, where it is declared but never called by any other function. -/
def ConcurrentDict.decreaseCount {V : Type} (dict : ConcurrentDict V) : ConcurrentDict V :=
  { dict with count := wrap32 (dict.count - 1) }

/-- `(*ConcurrentDict).Get(key)` (non-nil receiver): returns `(val, exists)`,
with `nil` (absent value) modelled as `none`. -/
def ConcurrentDict.Get {V : Type} (dict : ConcurrentDict V) (key : Key) :
    Option V × Bool :=
  match lookupA (dict.getShard (dict.spread key)).m key with
  | some v => (some v, true)
  | none => (none, false)

/-- `(*ConcurrentDict).Len()` (non-nil receiver): `int(atomic.LoadInt32(&dict.count))`. -/
def ConcurrentDict.Len {V : Type} (dict : ConcurrentDict V) : Int := dict.count

/-- `(*ConcurrentDict).Put(key, val)` (non-nil receiver): returns the new
dictionary state and the Go result (1 on insert, 0 on overwrite). -/
def ConcurrentDict.Put {V : Type} (dict : ConcurrentDict V) (key : Key) (val : V) :
    ConcurrentDict V × Int :=
  match lookupA (dict.getShard (dict.spread key)).m key with
  | some _ =>
    (dict.setShard (dict.spread key) ⟨insertA (dict.getShard (dict.spread key)).m key val⟩, 0)
  | none =>
    (dict.addCount.setShard (dict.spread key)
      ⟨insertA (dict.getShard (dict.spread key)).m key val⟩, 1)

/-- `(*ConcurrentDict).Remove(key)` (non-nil receiver): returns the new state
and the Go results `(val, result)`.  Faithful to the source: the global
counter is not touched (`decreaseCount` is never called). -/
def ConcurrentDict.Remove {V : Type} (dict : ConcurrentDict V) (key : Key) :
    ConcurrentDict V × (Option V × Int) :=
  match lookupA (dict.getShard (dict.spread key)).m key with
  | some v =>
    (dict.setShard (dict.spread key) ⟨eraseA (dict.getShard (dict.spread key)).m key⟩,
      (some v, 1))
  | none => (dict, (none, 0))

/-- The Go panic message `dict is nil !`, as bytes. -/
def nilPanicMsg : List Byte :=
  [100, 105, 99, 116, 32, 105, 115, 32, 110, 105, 108, 32, 33]

/-- `Get` on a possibly-nil receiver: `if dict == nil { panic("dict is nil !") }`.
The panic is modelled as `Except.error`. -/
def NGet {V : Type} (dict : Option (ConcurrentDict V)) (key : Key) :
    Except (List Byte) (Option V × Bool) :=
  match dict with
  | none => .error nilPanicMsg
  | some d => .ok (d.Get key)

/-- `Put` on a possibly-nil receiver; nil receivers panic. -/
def NPut {V : Type} (dict : Option (ConcurrentDict V)) (key : Key) (val : V) :
    Except (List Byte) (ConcurrentDict V × Int) :=
  match dict with
  | none => .error nilPanicMsg
  | some d => .ok (d.Put key val)

/-- `Remove` on a possibly-nil receiver; nil receivers panic. -/
def NRemove {V : Type} (dict : Option (ConcurrentDict V)) (key : Key) :
    Except (List Byte) (ConcurrentDict V × (Option V × Int)) :=
  match dict with
  | none => .error nilPanicMsg
  | some d => .ok (d.Remove key)

/-- `Len` on a possibly-nil receiver; nil receivers panic. -/
def NLen {V : Type} (dict : Option (ConcurrentDict V)) :
    Except (List Byte) Int :=
  match dict with
  | none => .error nilPanicMsg
  | some d => .ok d.Len

/-! ## `parser` (`src/unnamed/part_003`): the RESP decoder

The decoder reads from a `bufio.Reader` and sends `*Payload` values on a
channel.  The byte source is modelled as a finite `List Byte`; the channel is
modelled as the list of payloads sent, in order; exhausting the list is the
transport-level read failure (`io.EOF` / `io.ErrUnexpectedEOF`).  A Go
`Payload` holds either a decoded `redis.Reply` or an `error`; the error is
either a protocol error built by `protocolError` (non-fatal) or the transport
error after which `parse` closes the channel, so the payload type has three
constructors. -/

/-- `redis.Reply` variants built by the `protocol` package. -/
inductive Reply
  | status (s : List Byte)
  | err (s : List Byte)
  | int (i : Int)
  | bulk (b : List Byte)
  | nullBulk
  | multiBulk (items : List (List Byte))
  | emptyMultiBulk
deriving DecidableEq

/-- One value sent on the channel. -/
inductive Payload
  | data (r : Reply)
  | protocolErr (msg : List Byte)
  | transportErr
deriving DecidableEq

/-- ASCII of `protocol error: ` (the prefix added by `protocolError`). -/
def msgProtocolError : List Byte :=
  [112, 114, 111, 116, 111, 99, 111, 108, 32, 101, 114, 114, 111, 114, 58, 32]

/-- ASCII of `illegal number `. -/
def msgIllegalNumber : List Byte :=
  [105, 108, 108, 101, 103, 97, 108, 32, 110, 117, 109, 98, 101, 114, 32]

/-- ASCII of `illegal bulk number `. -/
def msgIllegalBulkNumber : List Byte :=
  [105, 108, 108, 101, 103, 97, 108, 32, 98, 117, 108, 107, 32,
   110, 117, 109, 98, 101, 114, 32]

/-- ASCII of `illegal bulk string header `. -/
def msgIllegalBulkHeader : List Byte :=
  [105, 108, 108, 101, 103, 97, 108, 32, 98, 117, 108, 107, 32,
   115, 116, 114, 105, 110, 103, 32, 104, 101, 97, 100, 101, 114, 32]

/-- ASCII of `illegal array number `. -/
def msgIllegalArrayNumber : List Byte :=
  [105, 108, 108, 101, 103, 97, 108, 32, 97, 114, 114, 97, 121, 32,
   110, 117, 109, 98, 101, 114, 32]

/-- `protocolError(ch, msg)`: sends a payload whose error is
`protocol error: ` + msg. -/
def protocolError (msg : List Byte) : Payload :=
  Payload.protocolErr (msgProtocolError ++ msg)

/-- `reader.ReadBytes('\n')`: the read bytes up to and including the first
newline, and the remaining input; `none` is the transport-error case (no
newline before the source is exhausted). -/
def readLine : List Byte → Option (List Byte × List Byte)
  | [] => none
  | b :: rest =>
    if b = 10 then some ([10], rest)
    else
      match readLine rest with
      | none => none
      | some (line, r) => some (b :: line, r)

/-- `io.ReadFull(reader, buf)` with `len(buf) = n`: exactly `n` bytes and the
remaining input, or `none` (transport error) if fewer are available. -/
def readFull (n : Nat) (input : List Byte) : Option (List Byte × List Byte) :=
  if n ≤ input.length then some (input.take n, input.drop n) else none

/-- Digit accumulation for `strconv.ParseInt(s, 10, 64)`. -/
def digitsVal : List Byte → Nat → Option Nat
  | [], acc => some acc
  | b :: t, acc =>
    if 48 ≤ b ∧ b ≤ 57 then digitsVal t (acc * 10 + (b - 48)) else none

/-- Sign-aware part of `strconv.ParseInt(s, 10, 64)`: digits must be
non-empty and the value must fit a signed 64-bit integer, else Go reports an
error (`ErrSyntax` / `ErrRange`), modelled as `none`. -/
def parseIntCore (neg : Bool) (ds : List Byte) : Option Int :=
  match ds with
  | [] => none
  | c :: t =>
    match digitsVal (c :: t) 0 with
    | none => none
    | some n =>
      if neg then
        if (n : Int) ≤ 2 ^ 63 then some (-(n : Int)) else none
      else
        if (n : Int) ≤ 2 ^ 63 - 1 then some (n : Int) else none

/-- `strconv.ParseInt(string(s), 10, 64)`: `none` iff Go returns a non-nil
error.  A leading `+` (byte 43) or `-` (byte 45) is consumed as the sign. -/
def parseIntGo (s : List Byte) : Option Int :=
  match s with
  | [] => none
  | b :: t =>
    if b = 43 then parseIntCore false t
    else if b = 45 then parseIntCore true t
    else parseIntCore false (b :: t)

/-- `bytes.TrimSuffix(line, []byte{'\r', '\n'})`: removes one trailing CRLF
if present, otherwise returns the input unchanged. -/
def trimSuffixCRLF (l : List Byte) : List Byte :=
  match l.reverse with
  | a :: b :: t => if a = 10 ∧ b = 13 then t.reverse else l
  | _ => l

/-- `parseBulkString(line, reader, ch)`.  `line` is the trimmed header
(`$...`).  Returns the payloads sent on the channel and `some rest` when the
function returns `nil` (decoding continues), or `none` when it returns a
transport error (the caller then sends the error payload and closes). -/
def parseBulkString (line : List Byte) (input : List Byte) :
    List Payload × Option (List Byte) :=
  match parseIntGo (line.drop 1) with
  | none => ([protocolError (msgIllegalBulkNumber ++ line.drop 1)], some input)
  | some num =>
    if num < -1 then
      ([protocolError (msgIllegalBulkNumber ++ line.drop 1)], some input)
    else if num = -1 then
      ([Payload.data Reply.nullBulk], some input)
    else
      match readFull (num.toNat + 2) input with
      | none => ([], none)
      | some (body, rest) =>
        ([Payload.data (Reply.bulk (body.take num.toNat))], some rest)

/-- The sub-frame loop of `parseArray` (`for i := 0; i < num; i++`), carrying
the accumulated `bulkStrings`.  On a malformed sub-header the Go code sends a
protocol error and `break`s, after which the final
`ch <- MakeMultiBulkReply(bulkStrings)` still runs, so those two payloads are
emitted together here. -/
def parseArrayItems : Nat → List (List Byte) → List Byte →
    List Payload × Option (List Byte)
  | 0, acc, input => ([Payload.data (Reply.multiBulk acc)], some input)
  | k + 1, acc, input =>
    match readLine input with
    | none => ([], none)
    | some (line, rest) =>
      if line.length < 4 ∨ line.get? (line.length - 2) ≠ some 13 ∨
          line.head? ≠ some 36 then
        ([protocolError (msgIllegalBulkHeader ++ line),
          Payload.data (Reply.multiBulk acc)], some rest)
      else
        match parseIntGo ((line.drop 1).take (line.length - 3)) with
        | none =>
          ([protocolError (msgIllegalBulkNumber ++ (line.drop 1).take (line.length - 3)),
            Payload.data (Reply.multiBulk acc)], some rest)
        | some bodyLen =>
          if bodyLen < -1 then
            ([protocolError (msgIllegalBulkNumber ++ (line.drop 1).take (line.length - 3)),
              Payload.data (Reply.multiBulk acc)], some rest)
          else if bodyLen = -1 then
            parseArrayItems k (acc ++ [[]]) rest
          else
            match readFull (bodyLen.toNat + 2) rest with
            | none => ([], none)
            | some (body, rest2) =>
              parseArrayItems k (acc ++ [body.take bodyLen.toNat]) rest2

/-- `parseArray(line, reader, ch)`.  `line` is the trimmed header (`*...`).
Same return convention as `parseBulkString`. -/
def parseArray (line : List Byte) (input : List Byte) :
    List Payload × Option (List Byte) :=
  match parseIntGo (line.drop 1) with
  | none => ([protocolError (msgIllegalArrayNumber ++ line.drop 1)], some input)
  | some num =>
    if num < 0 then
      ([protocolError (msgIllegalArrayNumber ++ line.drop 1)], some input)
    else if num = 0 then
      ([Payload.data Reply.emptyMultiBulk], some input)
    else
      parseArrayItems num.toNat [] input

/-- The body of `parse(rawReader, ch)`, with explicit fuel bounding the number
of loop iterations.  Every iteration consumes at least the one line read by
`ReadBytes`, so `input.length + 1` fuel always suffices (`parseFuel_mono`
below makes the fuel irrelevant above that bound); the fuel-0 branch is
unreachable from `parse`. -/
def parseFuel : Nat → List Byte → List Payload
  | 0, _ => []
  | f + 1, input =>
    match readLine input with
    | none => [Payload.transportErr]
    | some (line, rest) =>
      if line.length ≤ 2 ∨ line.get? (line.length - 2) ≠ some 13 then
        parseFuel f rest
      else
        -- `switch line[0]` on the trimmed line, as an if-chain; the final
        -- branch is Go's empty `default:` (silently skip the line)
        if (trimSuffixCRLF line).head? = some 43 then
          Payload.data (Reply.status ((trimSuffixCRLF line).drop 1)) :: parseFuel f rest
        else if (trimSuffixCRLF line).head? = some 45 then
          Payload.data (Reply.err ((trimSuffixCRLF line).drop 1)) :: parseFuel f rest
        else if (trimSuffixCRLF line).head? = some 58 then
          (match parseIntGo ((trimSuffixCRLF line).drop 1) with
           | none =>
             protocolError (msgIllegalNumber ++ (trimSuffixCRLF line).drop 1) ::
               parseFuel f rest
           | some i => Payload.data (Reply.int i) :: parseFuel f rest)
        else if (trimSuffixCRLF line).head? = some 36 then
          (match parseBulkString (trimSuffixCRLF line) rest with
           | (ps, none) => ps ++ [Payload.transportErr]
           | (ps, some rest2) => ps ++ parseFuel f rest2)
        else if (trimSuffixCRLF line).head? = some 42 then
          (match parseArray (trimSuffixCRLF line) rest with
           | (ps, none) => ps ++ [Payload.transportErr]
           | (ps, some rest2) => ps ++ parseFuel f rest2)
        else parseFuel f rest

/-- `parse(rawReader, ch)` over a finite byte source: the full list of
payloads sent on the channel before it is closed. -/
def parse (input : List Byte) : List Payload :=
  parseFuel (input.length + 1) input

/-- A sub-frame wire item inside an array: the text between `$` and the CRLF
of its header, and its body (`none` encodes the `$-1` null header, which has
no body). -/
structure WireBulk where
  lenBytes : List Byte
  body : Option (List Byte)

/-- The encoded bytes of one array sub-frame. -/
def WireBulk.enc (w : WireBulk) : List Byte :=
  36 :: w.lenBytes ++ [13, 10] ++
    (match w.body with
     | none => []
     | some b => b ++ [13, 10])

/-- The byte string this sub-frame contributes to the decoded array
(`$-1` contributes the empty byte string). -/
def WireBulk.val (w : WireBulk) : List Byte := w.body.getD []

/-- Well-formedness of a sub-frame: its header text parses to `-1` for a null
item, or to the exact body length otherwise. -/
def WireBulk.WF (w : WireBulk) : Prop :=
  match w.body with
  | none => parseIntGo w.lenBytes = some (-1)
  | some b => parseIntGo w.lenBytes = some (b.length : Int)

/-- Concatenated encoding of a list of array sub-frames. -/
def encItems : List WireBulk → List Byte
  | [] => []
  | w :: t => w.enc ++ encItems t

/-- The malformed-sub-header test of `parseArray`'s loop, on the raw line
returned by `ReadBytes` (newline included): the structural check
(`length < 4 || line[length-2] != '\r' || line[0] != '$'`), or a header whose
length text does not parse, or parses below -1. -/
def badSubHeader (line : List Byte) : Bool :=
  decide (line.length < 4) || decide (line.get? (line.length - 2) ≠ some 13) ||
    decide (line.head? ≠ some 36) ||
    (match parseIntGo ((line.drop 1).take (line.length - 3)) with
     | none => true
     | some n => decide (n < -1))

/-! ## `tcp/app_server.go`: the echo connection handler

`Handle` is driven by the connection's read loop: `reader.ReadString('\n')`
yields a sequence of lines and then a terminating error.  The read script is
modelled as that list of lines plus the terminating condition; the handler
state is the `activeConn` registry (a set of client identities) and the
`closing` flag; the value returned is the state at the moment `Handle`
returns, together with the bytes written back (each line echoed). -/

/-- How the read loop terminates: `io.EOF` (clean end of stream) or any other
read error. -/
inductive ReadEnd
  | eof
  | readFail
deriving DecidableEq

/-- `EchoHandler` state: the `activeConn` set (client identities) and the
`closing` flag. -/
structure HandlerState where
  activeConn : List Nat
  closing : Bool
deriving DecidableEq

/-- `h.activeConn.Store(client, struct{}{})`: set insertion. -/
def register (l : List Nat) (c : Nat) : List Nat :=
  if c ∈ l then l else c :: l

/-- `h.activeConn.Delete(client)`: set removal. -/
def unregister (l : List Nat) (c : Nat) : List Nat := l.erase c

/-- `(*EchoHandler).Handle(ctx, conn)`: if `closing` is set the connection is
closed at once and never registered; otherwise the client is stored in
`activeConn`, each read line is echoed back, and on the terminating read
error the client is deleted from `activeConn` only in the `io.EOF` branch —
on any other read error `Handle` just logs and returns. -/
def Handle (h : HandlerState) (client : Nat) (lines : List (List Byte))
    (endRead : ReadEnd) : HandlerState × List (List Byte) :=
  if h.closing then (h, [])
  else
    match endRead with
    | ReadEnd.eof =>
      ({ h with activeConn := unregister (register h.activeConn client) client }, lines)
    | ReadEnd.readFail =>
      ({ h with activeConn := register h.activeConn client }, lines)

/-! ## Helper lemmas about the dictionary model -/

theorem lookupA_insertA_self {V : Type} (m : List (Key × V)) (key : Key) (val : V) :
    lookupA (insertA m key val) key = some val := by
  induction m with
  | nil => simp [insertA, lookupA]
  | cons p t ih =>
    obtain ⟨k, v⟩ := p
    by_cases h : k = key
    · simp [insertA, lookupA, h]
    · simp [insertA, lookupA, h, ih]

theorem getD_set_self {α : Type} :
    ∀ (l : List α) (i : Nat) (s dflt : α), i < l.length →
      (l.set i s).getD i dflt = s
  | [], i, _, _, h => absurd h (by simp)
  | _ :: _, 0, _, _, _ => rfl
  | _ :: t, i + 1, s, dflt, h =>
    getD_set_self t i s dflt (by simpa using h)

theorem wrap32_eq_self (x : Int) (h1 : -(2 ^ 31) ≤ x) (h2 : x < 2 ^ 31) :
    wrap32 x = x := by
  unfold wrap32
  rw [Int.emod_eq_of_lt (by omega) (by omega)]
  omega

theorem get_after_set {V : Type} (d : ConcurrentDict V) (k : Key) (s' : Shard V)
    (c' sc : Int) (hidx : d.spread k < d.table.length) :
    ConcurrentDict.Get ⟨d.table.set (d.spread k) s', c', sc⟩ k
      = (match lookupA s'.m k with
         | some v => (some v, true)
         | none => (none, false)) := by
  unfold ConcurrentDict.Get ConcurrentDict.getShard
  have h1 : ConcurrentDict.spread (⟨d.table.set (d.spread k) s', c', sc⟩ : ConcurrentDict V) k
      = d.spread k := by
    simp only [ConcurrentDict.spread, List.length_set]
  rw [h1]
  rw [show (⟨d.table.set (d.spread k) s', c', sc⟩ : ConcurrentDict V).table
      = d.table.set (d.spread k) s' from rfl]
  rw [getD_set_self _ _ _ _ (by simpa using hidx)]

/-! ## Claim theorems for the sharded dictionary -/

/-- Claim C1: the claim states that `Remove` of a present key decrements the
global counter, so that `Len()` equals successful inserts minus successful
removals.  The code never calls `decreaseCount`: after `Put("a", 7)` then
`Remove("a")` on a fresh single-shard dictionary, `Remove` returns the stored
value and 1 and deletes the entry, yet `Len()` still returns 1 (the claim
requires 0).  This theorem evaluates the code at that failing input. -/
theorem C1_remove_never_decrements_counter :
    MakeConcurrent Nat 1 = some ⟨[⟨[]⟩], 0, 1⟩ ∧
    ConcurrentDict.Put (⟨[⟨[]⟩], 0, 1⟩ : ConcurrentDict Nat) [97] 7
      = (⟨[⟨[([97], 7)]⟩], 1, 1⟩, 1) ∧
    ConcurrentDict.Remove (⟨[⟨[([97], 7)]⟩], 1, 1⟩ : ConcurrentDict Nat) [97]
      = (⟨[⟨[]⟩], 1, 1⟩, (some 7, 1)) ∧
    ConcurrentDict.Len (⟨[⟨[]⟩], 1, 1⟩ : ConcurrentDict Nat) = 1 ∧
    (ConcurrentDict.Get (⟨[⟨[]⟩], 1, 1⟩ : ConcurrentDict Nat) [97]).2 = false := by
  decide

/-- Claim C4: the claim states `computeCapacity(n)` returns the smallest power
of two that is at least 16 and at least `n`, for every input.  The bit-smear
in the code covers only 32 bits while Go's `int` is 64-bit, so at input
`2^32 + 1` the code returns `2^33 - 1`, an odd number (hence not a power of
two; the smallest power of two at least the input is `2^33`).  This
contradicts the function's own documented purpose (a power-of-two capacity,
relied on by `spread`'s bitmask).  This theorem evaluates the code at the
failing input. -/
theorem C4_computeCapacity_not_power_of_two :
    computeCapacity 4294967297 = 8589934591 ∧
    (8589934591 : Int) % 2 = 1 ∧
    (16 : Int) < 8589934591 ∧
    computeCapacity 4294967296 = 4294967296 ∧
    computeCapacity 1 = 16 ∧
    computeCapacity 17 = 32 := by
  decide

/-- Claim C6: `Put(key, value)` returns 1 iff the key was absent immediately
before the call (and then the global counter grows by exactly one), returns 0
iff the key was present (counter unchanged), and in both cases the key maps
to the new value afterwards.  Presence is observed through the code's own
`Get`.  Hypotheses: the table is non-empty (true of every dictionary built by
`MakeConcurrent`) and the `int32` counter is not at its extremes (so the
atomic increment does not wrap). -/
theorem C6_put_insert_flag_and_counter {V : Type} (d : ConcurrentDict V)
    (k : Key) (v : V) (hT : d.table ≠ [])
    (hc1 : -(2 ^ 31) ≤ d.count) (hc2 : d.count < 2 ^ 31 - 1) :
    ((d.Put k v).2 = 1 ↔ (d.Get k).2 = false) ∧
    ((d.Put k v).2 = 0 ↔ (d.Get k).2 = true) ∧
    ((d.Get k).2 = false → (d.Put k v).1.count = d.count + 1) ∧
    ((d.Get k).2 = true → (d.Put k v).1.count = d.count) ∧
    (d.Put k v).1.Get k = (some v, true) := by
  have hlen : d.table.length ≠ 0 := fun h => hT (List.eq_nil_of_length_eq_zero h)
  have hidx : d.spread k < d.table.length := by
    unfold ConcurrentDict.spread
    rw [if_neg hlen]
    have := Nat.and_le_right (n := fnv32 k) (m := d.table.length - 1)
    omega
  rcases hm : lookupA (d.getShard (d.spread k)).m k with _ | w
  · -- key absent: fresh insertion
    have hput : d.Put k v =
        (d.addCount.setShard (d.spread k)
          ⟨insertA (d.getShard (d.spread k)).m k v⟩, 1) := by
      unfold ConcurrentDict.Put
      rw [hm]
    have hget : d.Get k = (none, false) := by
      unfold ConcurrentDict.Get
      rw [hm]
    refine ⟨by rw [hput, hget]; simp, by rw [hput, hget]; simp, ?_, ?_, ?_⟩
    · intro _
      rw [hput]
      show wrap32 (d.count + 1) = d.count + 1
      exact wrap32_eq_self _ (by omega) (by omega)
    · intro hcontra
      rw [hget] at hcontra
      simp at hcontra
    · rw [hput]
      have h := get_after_set d k ⟨insertA (d.getShard (d.spread k)).m k v⟩
        (wrap32 (d.count + 1)) d.shardCount hidx
      rw [lookupA_insertA_self] at h
      simpa using h
  · -- key present: overwrite
    have hput : d.Put k v =
        (d.setShard (d.spread k)
          ⟨insertA (d.getShard (d.spread k)).m k v⟩, 0) := by
      unfold ConcurrentDict.Put
      rw [hm]
    have hget : d.Get k = (some w, true) := by
      unfold ConcurrentDict.Get
      rw [hm]
    refine ⟨by rw [hput, hget]; simp, by rw [hput, hget]; simp, ?_, ?_, ?_⟩
    · intro hcontra
      rw [hget] at hcontra
      simp at hcontra
    · intro _
      rw [hput]
      rfl
    · rw [hput]
      have h := get_after_set d k ⟨insertA (d.getShard (d.spread k)).m k v⟩
        d.count d.shardCount hidx
      rw [lookupA_insertA_self] at h
      simpa using h

/-- Witness for C6 at a concrete dictionary, key and value. -/
theorem C6_put_insert_flag_and_counter_witness :
    (((⟨[⟨[]⟩], 0, 1⟩ : ConcurrentDict Nat).Put [97] 5).2 = 1 ↔
      ((⟨[⟨[]⟩], 0, 1⟩ : ConcurrentDict Nat).Get [97]).2 = false) ∧
    (((⟨[⟨[]⟩], 0, 1⟩ : ConcurrentDict Nat).Put [97] 5).2 = 0 ↔
      ((⟨[⟨[]⟩], 0, 1⟩ : ConcurrentDict Nat).Get [97]).2 = true) ∧
    (((⟨[⟨[]⟩], 0, 1⟩ : ConcurrentDict Nat).Get [97]).2 = false →
      ((⟨[⟨[]⟩], 0, 1⟩ : ConcurrentDict Nat).Put [97] 5).1.count = 0 + 1) ∧
    (((⟨[⟨[]⟩], 0, 1⟩ : ConcurrentDict Nat).Get [97]).2 = true →
      ((⟨[⟨[]⟩], 0, 1⟩ : ConcurrentDict Nat).Put [97] 5).1.count = 0) ∧
    ((⟨[⟨[]⟩], 0, 1⟩ : ConcurrentDict Nat).Put [97] 5).1.Get [97] = (some 5, true) :=
  C6_put_insert_flag_and_counter (⟨[⟨[]⟩], 0, 1⟩ : ConcurrentDict Nat) [97] 5
    (by decide) (by decide) (by decide)

/-- Claim C9: `MakeConcurrent` with a non-positive requested shard count
returns `nil` (`none`), and every operation invoked on that nil result panics
(`Except.error` with the Go panic message) rather than returning zero values. -/
theorem C9_nil_dict_operations_panic (n : Int) (h : n ≤ 0) :
    MakeConcurrent Nat n = none ∧
    ∀ (k : Key) (v : Nat),
      NGet (V := Nat) none k = .error nilPanicMsg ∧
      NPut (V := Nat) none k v = .error nilPanicMsg ∧
      NRemove (V := Nat) none k = .error nilPanicMsg ∧
      NLen (V := Nat) none = .error nilPanicMsg := by
  refine ⟨?_, fun k v => ⟨rfl, rfl, rfl, rfl⟩⟩
  unfold MakeConcurrent
  rw [if_pos h]

/-- Witness for C9 at requested shard count 0. -/
theorem C9_nil_dict_operations_panic_witness :
    MakeConcurrent Nat 0 = none ∧
    NGet (V := Nat) none [] = .error nilPanicMsg :=
  ⟨(C9_nil_dict_operations_panic 0 (by norm_num)).1,
    ((C9_nil_dict_operations_panic 0 (by norm_num)).2 [] 0).1⟩

/-! ## Helper lemmas about the decoder -/

theorem readLine_append (pre rest : List Byte) (h : 10 ∉ pre) :
    readLine (pre ++ 10 :: rest) = some (pre ++ [10], rest) := by
  induction pre with
  | nil => simp [readLine]
  | cons b t ih =>
    have hb : ¬(b = 10) := fun e => h (by simp [e])
    have ht : (10 : Byte) ∉ t := fun m => h (by simp [m])
    simp [readLine, hb, ih ht]

theorem readLine_length :
    ∀ {input line rest : List Byte}, readLine input = some (line, rest) →
      rest.length < input.length := by
  intro input
  induction input with
  | nil => intro line rest h; simp [readLine] at h
  | cons b t ih =>
    intro line rest h
    rw [readLine] at h
    split_ifs at h with hb
    · simp only [Option.some.injEq, Prod.mk.injEq] at h
      obtain ⟨h1, h2⟩ := h
      subst h2
      simp only [List.length_cons]
      omega
    · split at h
      · simp at h
      · rename_i l2 r2 hr
        simp only [Option.some.injEq, Prod.mk.injEq] at h
        obtain ⟨h1, h2⟩ := h
        subst h2
        have := ih hr
        simp only [List.length_cons]
        omega

theorem readFull_append (body rest : List Byte) :
    readFull body.length (body ++ rest) = some (body, rest) := by
  unfold readFull
  rw [if_pos (by simp)]
  rw [List.take_left, List.drop_left]

theorem readFull_length {n : Nat} {input b r : List Byte}
    (h : readFull n input = some (b, r)) : r.length ≤ input.length := by
  unfold readFull at h
  split_ifs at h with hn
  · simp only [Option.some.injEq, Prod.mk.injEq] at h
    obtain ⟨h1, h2⟩ := h
    subst h2
    simp

theorem digitsVal_mem :
    ∀ (ds : List Byte) (acc n : Nat), digitsVal ds acc = some n →
      ∀ b ∈ ds, 48 ≤ b ∧ b ≤ 57 := by
  intro ds
  induction ds with
  | nil => intro acc n _ b hb; simp at hb
  | cons c t ih =>
    intro acc n h b hb
    rw [digitsVal] at h
    split_ifs at h with hc
    rcases List.mem_cons.mp hb with rfl | hbt
    · exact hc
    · exact ih _ _ h b hbt

theorem parseIntCore_mem {neg : Bool} {ds : List Byte} {v : Int}
    (h : parseIntCore neg ds = some v) : ∀ b ∈ ds, 48 ≤ b ∧ b ≤ 57 := by
  cases ds with
  | nil => simp [parseIntCore] at h
  | cons c t =>
    rw [parseIntCore] at h
    split at h
    · simp at h
    · rename_i n hd
      exact fun b hb => digitsVal_mem _ _ _ hd b hb

theorem parseIntGo_no10 {s : List Byte} {v : Int} (h : parseIntGo s = some v) :
    (10 : Byte) ∉ s := by
  cases s with
  | nil => simp
  | cons b t =>
    rw [parseIntGo] at h
    intro hm
    rcases List.mem_cons.mp hm with he | hmt
    · subst he
      simp at h
      have := parseIntCore_mem h 10 (by simp)
      simp at this
    · by_cases h43 : b = 43
      · rw [if_pos h43] at h
        have := parseIntCore_mem h 10 hmt
        simp at this
      · rw [if_neg h43] at h
        by_cases h45 : b = 45
        · rw [if_pos h45] at h
          have := parseIntCore_mem h 10 hmt
          simp at this
        · rw [if_neg h45] at h
          have := parseIntCore_mem h 10 (List.mem_cons_of_mem _ hmt)
          simp at this

theorem parseIntGo_ne_nil {s : List Byte} {v : Int} (h : parseIntGo s = some v) :
    s ≠ [] := by
  intro he
  subst he
  simp [parseIntGo] at h

theorem trimSuffixCRLF_append (pre : List Byte) :
    trimSuffixCRLF (pre ++ [13, 10]) = pre := by
  have hrev : (pre ++ [13, 10]).reverse = 10 :: 13 :: pre.reverse := by simp
  unfold trimSuffixCRLF
  rw [hrev]
  simp

theorem get_append13 (text : List Byte) :
    (text ++ [13, 10]).get? text.length = some 13 := by
  induction text with
  | nil => rfl
  | cons c t ih => simpa using ih

theorem get_line13 (a : Byte) (text : List Byte) :
    (a :: (text ++ [13, 10])).get? (text.length + 1) = some 13 := by
  simpa using get_append13 text

theorem parseBulkString_length {line input : List Byte} {ps : List Payload}
    {r : List Byte} (h : parseBulkString line input = (ps, some r)) :
    r.length ≤ input.length := by
  unfold parseBulkString at h
  split at h
  · simp only [Prod.mk.injEq, Option.some.injEq] at h
    obtain ⟨h1, h2⟩ := h
    subst h2
    exact le_refl _
  · split_ifs at h with h1 h2
    · simp only [Prod.mk.injEq, Option.some.injEq] at h
      obtain ⟨h3, h4⟩ := h
      subst h4
      exact le_refl _
    · simp only [Prod.mk.injEq, Option.some.injEq] at h
      obtain ⟨h3, h4⟩ := h
      subst h4
      exact le_refl _
    · split at h
      · simp at h
      · rename_i body rest hf
        simp only [Prod.mk.injEq, Option.some.injEq] at h
        obtain ⟨h3, h4⟩ := h
        subst h4
        exact readFull_length hf

theorem parseArrayItems_length :
    ∀ (k : Nat) (acc : List (List Byte)) (input : List Byte)
      (ps : List Payload) (r : List Byte),
      parseArrayItems k acc input = (ps, some r) → r.length ≤ input.length := by
  intro k
  induction k with
  | zero =>
    intro acc input ps r h
    simp only [parseArrayItems, Prod.mk.injEq, Option.some.injEq] at h
    obtain ⟨h1, h2⟩ := h
    subst h2
    exact le_refl _
  | succ k ih =>
    intro acc input ps r h
    rw [parseArrayItems] at h
    split at h
    · simp at h
    · rename_i line rest hl
      have hrest := readLine_length hl
      split_ifs at h with hbad
      · simp only [Prod.mk.injEq, Option.some.injEq] at h
        obtain ⟨h1, h2⟩ := h
        subst h2
        omega
      · split at h
        · simp only [Prod.mk.injEq, Option.some.injEq] at h
          obtain ⟨h1, h2⟩ := h
          subst h2
          omega
        · rename_i bodyLen hp
          split_ifs at h with hlt hm1
          · simp only [Prod.mk.injEq, Option.some.injEq] at h
            obtain ⟨h1, h2⟩ := h
            subst h2
            omega
          · have := ih _ _ _ _ h
            omega
          · split at h
            · simp at h
            · rename_i body rest2 hf
              have h2 := readFull_length hf
              have := ih _ _ _ _ h
              omega

theorem parseArray_length {line input : List Byte} {ps : List Payload}
    {r : List Byte} (h : parseArray line input = (ps, some r)) :
    r.length ≤ input.length := by
  unfold parseArray at h
  split at h
  · simp only [Prod.mk.injEq, Option.some.injEq] at h
    obtain ⟨h1, h2⟩ := h
    subst h2
    exact le_refl _
  · split_ifs at h with h1 h2
    · simp only [Prod.mk.injEq, Option.some.injEq] at h
      obtain ⟨h3, h4⟩ := h
      subst h4
      exact le_refl _
    · simp only [Prod.mk.injEq, Option.some.injEq] at h
      obtain ⟨h3, h4⟩ := h
      subst h4
      exact le_refl _
    · exact parseArrayItems_length _ _ _ _ _ h

theorem parseFuel_mono :
    ∀ (f g : Nat) (input : List Byte), input.length < f → input.length < g →
      parseFuel f input = parseFuel g input := by
  intro f
  induction f with
  | zero => intro g input hf _; exact absurd hf (Nat.not_lt_zero _)
  | succ f ih =>
    intro g input hf hg
    cases g with
    | zero => exact absurd hg (Nat.not_lt_zero _)
    | succ g =>
      conv_lhs => rw [parseFuel]
      split
      · rename_i hl
        rw [parseFuel, hl]
      · rename_i line rest hl
        have hrest := readLine_length hl
        rw [parseFuel, hl]
        simp only []
        split_ifs
        · exact ih g rest (by omega) (by omega)
        · rw [ih g rest (by omega) (by omega)]
        · rw [ih g rest (by omega) (by omega)]
        · rw [ih g rest (by omega) (by omega)]
        · rcases hb : parseBulkString (trimSuffixCRLF line) rest with ⟨ps, r⟩
          rcases r with _ | rest2
          · simp only []
          · simp only []
            have hr2 := parseBulkString_length hb
            rw [ih g rest2 (by omega) (by omega)]
        · rcases hb : parseArray (trimSuffixCRLF line) rest with ⟨ps, r⟩
          rcases r with _ | rest2
          · simp only []
          · simp only []
            have hr2 := parseArray_length hb
            rw [ih g rest2 (by omega) (by omega)]
        · exact ih g rest (by omega) (by omega)

theorem parse_eq_parseFuel (f : Nat) (input : List Byte) (h : input.length < f) :
    parse input = parseFuel f input :=
  parseFuel_mono (input.length + 1) f input (Nat.lt_succ_self _) h

theorem readLine_header (a : Byte) (text rest : List Byte) (ha : a ≠ 10)
    (h10 : (10 : Byte) ∉ text) :
    readLine (a :: (text ++ ([13, 10] ++ rest))) =
      some (a :: (text ++ [13, 10]), rest) := by
  have hsplit : a :: (text ++ ([13, 10] ++ rest)) = (a :: (text ++ [13])) ++ 10 :: rest := by
    simp
  have hpre : (10 : Byte) ∉ a :: (text ++ [13]) := by
    intro hmem
    rcases List.mem_cons.mp hmem with he | hmem2
    · exact ha he.symm
    · rcases List.mem_append.mp hmem2 with h1 | h2
      · exact h10 h1
      · simp at h2
  rw [hsplit, readLine_append _ _ hpre]
  simp

theorem parseFuel_header (f : Nat) (a : Byte) (text rest : List Byte)
    (ha : a ≠ 10) (h10 : (10 : Byte) ∉ text) :
    parseFuel (f + 1) (a :: (text ++ ([13, 10] ++ rest))) =
      (if a = 43 then Payload.data (Reply.status text) :: parseFuel f rest
       else if a = 45 then Payload.data (Reply.err text) :: parseFuel f rest
       else if a = 58 then
         (match parseIntGo text with
          | none => protocolError (msgIllegalNumber ++ text) :: parseFuel f rest
          | some i => Payload.data (Reply.int i) :: parseFuel f rest)
       else if a = 36 then
         (match parseBulkString (a :: text) rest with
          | (ps, none) => ps ++ [Payload.transportErr]
          | (ps, some rest2) => ps ++ parseFuel f rest2)
       else if a = 42 then
         (match parseArray (a :: text) rest with
          | (ps, none) => ps ++ [Payload.transportErr]
          | (ps, some rest2) => ps ++ parseFuel f rest2)
       else parseFuel f rest) := by
  have htrim : trimSuffixCRLF (a :: (text ++ [13, 10])) = a :: text :=
    trimSuffixCRLF_append (a :: text)
  have hget : (a :: (text ++ [13, 10])).get? ((a :: (text ++ [13, 10])).length - 2)
      = some 13 := by
    have h1 : (a :: (text ++ [13, 10])).length - 2 = text.length + 1 := by
      simp
    rw [h1, get_line13]
  have hlen : ¬((a :: (text ++ [13, 10])).length ≤ 2) := by
    simp
  rw [parseFuel, readLine_header a text rest ha h10]
  simp only []
  rw [if_neg (by
    push_neg
    exact ⟨by simp, hget⟩)]
  rw [htrim]
  simp only [List.head?_cons, List.drop_one, List.tail_cons, Option.some.injEq]

theorem parse_step_int (text rest : List Byte) (h10 : (10 : Byte) ∉ text) :
    parse (58 :: (text ++ ([13, 10] ++ rest))) =
      (match parseIntGo text with
       | none => protocolError (msgIllegalNumber ++ text)
       | some i => Payload.data (Reply.int i)) :: parse rest := by
  have hlen : (58 :: (text ++ ([13, 10] ++ rest))).length + 1
      = (text.length + rest.length + 3) + 1 := by
    simp
    omega
  show parseFuel ((58 :: (text ++ ([13, 10] ++ rest))).length + 1)
      (58 :: (text ++ ([13, 10] ++ rest))) = _
  rw [hlen, parseFuel_header _ 58 text rest (by norm_num) h10]
  rw [if_neg (by norm_num), if_neg (by norm_num), if_pos rfl]
  rw [show parseFuel (text.length + rest.length + 3) rest = parse rest from
    (parse_eq_parseFuel _ _ (by omega)).symm]
  rcases hp : parseIntGo text with _ | i
  · simp only []
  · simp only []

theorem parse_step_bulk (text rest : List Byte) (h10 : (10 : Byte) ∉ text) :
    parse (36 :: (text ++ ([13, 10] ++ rest))) =
      (match parseBulkString (36 :: text) rest with
       | (ps, none) => ps ++ [Payload.transportErr]
       | (ps, some rest2) => ps ++ parse rest2) := by
  have hlen : (36 :: (text ++ ([13, 10] ++ rest))).length + 1
      = (text.length + rest.length + 3) + 1 := by
    simp
    omega
  show parseFuel ((36 :: (text ++ ([13, 10] ++ rest))).length + 1)
      (36 :: (text ++ ([13, 10] ++ rest))) = _
  rw [hlen, parseFuel_header _ 36 text rest (by norm_num) h10]
  rw [if_neg (by norm_num), if_neg (by norm_num), if_neg (by norm_num), if_pos rfl]
  rcases hb : parseBulkString (36 :: text) rest with ⟨ps, r⟩
  rcases r with _ | rest2
  · simp only []
  · simp only []
    have hr2 := parseBulkString_length hb
    rw [show parseFuel (text.length + rest.length + 3) rest2 = parse rest2 from
      (parse_eq_parseFuel _ _ (by omega)).symm]

theorem parse_step_array (text rest : List Byte) (h10 : (10 : Byte) ∉ text) :
    parse (42 :: (text ++ ([13, 10] ++ rest))) =
      (match parseArray (42 :: text) rest with
       | (ps, none) => ps ++ [Payload.transportErr]
       | (ps, some rest2) => ps ++ parse rest2) := by
  have hlen : (42 :: (text ++ ([13, 10] ++ rest))).length + 1
      = (text.length + rest.length + 3) + 1 := by
    simp
    omega
  show parseFuel ((42 :: (text ++ ([13, 10] ++ rest))).length + 1)
      (42 :: (text ++ ([13, 10] ++ rest))) = _
  rw [hlen, parseFuel_header _ 42 text rest (by norm_num) h10]
  rw [if_neg (by norm_num), if_neg (by norm_num), if_neg (by norm_num),
    if_neg (by norm_num), if_pos rfl]
  rcases hb : parseArray (42 :: text) rest with ⟨ps, r⟩
  rcases r with _ | rest2
  · simp only []
  · simp only []
    have hr2 := parseArray_length hb
    rw [show parseFuel (text.length + rest.length + 3) rest2 = parse rest2 from
      (parse_eq_parseFuel _ _ (by omega)).symm]

/-! ## Claim theorems for the decoder: integer and bulk-string frames -/

/-- Claim C7: for an integer line `:<text>\r\n` whose text is not a valid
signed 64-bit integer, the decoder emits a protocol-error frame and then
continues parsing the rest of the same stream (the output continues with
`parse rest`, so later well-formed frames are still decoded); a valid
integer line yields an integer frame with the parsed value.  Byte 58 is `:`;
the hypothesis excludes a newline inside the text, which would end the line
early on the wire. -/
theorem C7_integer_line_error_recovery (text rest : List Byte)
    (h10 : (10 : Byte) ∉ text) :
    (parseIntGo text = none →
      parse (58 :: (text ++ ([13, 10] ++ rest)))
        = protocolError (msgIllegalNumber ++ text) :: parse rest) ∧
    (∀ v : Int, parseIntGo text = some v →
      parse (58 :: (text ++ ([13, 10] ++ rest)))
        = Payload.data (Reply.int v) :: parse rest) := by
  constructor
  · intro hp
    rw [parse_step_int text rest h10, hp]
  · intro v hp
    rw [parse_step_int text rest h10, hp]

/-- Witness for C7: decoding `:abc\r\n:1\r\n` yields the protocol-error frame
for `abc`, then the integer frame `1`, then the terminal transport error —
the stream stays usable after the malformed line. -/
theorem C7_integer_line_error_recovery_witness :
    parse [58, 97, 98, 99, 13, 10, 58, 49, 13, 10]
      = protocolError (msgIllegalNumber ++ [97, 98, 99])
          :: [Payload.data (Reply.int 1), Payload.transportErr] := by
  have h := (C7_integer_line_error_recovery [97, 98, 99] [58, 49, 13, 10]
    (by decide)).1 (by decide)
  exact h.trans (by decide)

/-- Claim C5: a bulk-string header `$<lb>\r\n` with `lb` parsing to −1 yields
the null-bulk frame; with `lb` parsing to the body length, exactly that many
raw body bytes plus a 2-byte terminator are consumed and the frame carries
exactly the body bytes (binary-safe: `body` is arbitrary, it may contain CR
and LF); a non-numeric `lb` or one parsing below −1 yields a protocol-error
frame, and in every case decoding continues with the rest of the stream. -/
theorem C5_bulk_string_cases (lb body rest : List Byte)
    (h10 : (10 : Byte) ∉ lb) :
    (parseIntGo lb = some (-1) →
      parse (36 :: (lb ++ ([13, 10] ++ rest)))
        = Payload.data Reply.nullBulk :: parse rest) ∧
    (parseIntGo lb = some (body.length : Int) →
      parse (36 :: (lb ++ ([13, 10] ++ (body ++ ([13, 10] ++ rest)))))
        = Payload.data (Reply.bulk body) :: parse rest) ∧
    ((parseIntGo lb = none ∨ ∃ n : Int, parseIntGo lb = some n ∧ n < -1) →
      parse (36 :: (lb ++ ([13, 10] ++ rest)))
        = protocolError (msgIllegalBulkNumber ++ lb) :: parse rest) := by
  refine ⟨?_, ?_, ?_⟩
  · intro hp
    rw [parse_step_bulk lb rest h10]
    have hb : parseBulkString (36 :: lb) rest
        = ([Payload.data Reply.nullBulk], some rest) := by
      unfold parseBulkString
      rw [show (36 :: lb).drop 1 = lb from rfl, hp]
      norm_num
    rw [hb]
    rfl
  · intro hp
    rw [parse_step_bulk lb (body ++ ([13, 10] ++ rest)) h10]
    have hb : parseBulkString (36 :: lb) (body ++ ([13, 10] ++ rest))
        = ([Payload.data (Reply.bulk body)], some rest) := by
      unfold parseBulkString
      rw [show (36 :: lb).drop 1 = lb from rfl, hp]
      simp only []
      rw [if_neg (by omega), if_neg (by omega)]
      rw [show ((body.length : Int)).toNat + 2 = (body ++ [13, 10]).length by simp]
      rw [show body ++ ([13, 10] ++ rest) = (body ++ [13, 10]) ++ rest by simp]
      rw [readFull_append]
      simp only []
      rw [show ((body.length : Int)).toNat = body.length by simp]
      rw [List.take_left]
    rw [hb]
    rfl
  · intro hp
    rw [parse_step_bulk lb rest h10]
    have hb : parseBulkString (36 :: lb) rest
        = ([protocolError (msgIllegalBulkNumber ++ lb)], some rest) := by
      unfold parseBulkString
      rw [show (36 :: lb).drop 1 = lb from rfl]
      rcases hp with hnone | ⟨n, hs, hlt⟩
      · rw [hnone]
      · rw [hs]
        simp only []
        rw [if_pos hlt]
    rw [hb]
    rfl

/-- Witness for C5: decoding `$4\r\nA\r\nB\r\n` yields one bulk-string frame
with exactly the 4 raw bytes `A\r\nB` (65, 13, 10, 66) — the embedded CRLF
does not truncate the frame — followed by the terminal transport error. -/
theorem C5_bulk_string_cases_witness :
    parse [36, 52, 13, 10, 65, 13, 10, 66, 13, 10]
      = [Payload.data (Reply.bulk [65, 13, 10, 66]), Payload.transportErr] := by
  have h := (C5_bulk_string_cases [52] [65, 13, 10, 66] []
    (by decide)).2.1 (by decide)
  exact h.trans (by decide)

/-! ## Transport errors are terminal (C8) -/

theorem parseBulkString_no_transport {line input : List Byte} {ps : List Payload}
    {r : Option (List Byte)} (h : parseBulkString line input = (ps, r)) :
    Payload.transportErr ∉ ps := by
  unfold parseBulkString at h
  split at h
  · injection h with h1 h2
    subst h1
    simp [protocolError]
  · split_ifs at h with h1 h2
    · injection h with h1 h2
      subst h1
      simp [protocolError]
    · injection h with h1 h2
      subst h1
      simp
    · split at h
      · injection h with h1 h2
        subst h1
        simp
      · injection h with h1 h2
        subst h1
        simp

theorem parseArrayItems_no_transport :
    ∀ (k : Nat) (acc : List (List Byte)) (input : List Byte)
      (ps : List Payload) (r : Option (List Byte)),
      parseArrayItems k acc input = (ps, r) → Payload.transportErr ∉ ps := by
  intro k
  induction k with
  | zero =>
    intro acc input ps r h
    rw [parseArrayItems] at h
    injection h with h1 h2
    subst h1
    simp
  | succ k ih =>
    intro acc input ps r h
    rw [parseArrayItems] at h
    split at h
    · injection h with h1 h2
      subst h1
      simp
    · rename_i line rest hl
      split_ifs at h with hbad
      · injection h with h1 h2
        subst h1
        simp [protocolError]
      · split at h
        · injection h with h1 h2
          subst h1
          simp [protocolError]
        · rename_i bodyLen hp
          split_ifs at h with hlt hm1
          · injection h with h1 h2
            subst h1
            simp [protocolError]
          · exact ih _ _ _ _ h
          · split at h
            · injection h with h1 h2
              subst h1
              simp
            · exact ih _ _ _ _ h

theorem parseArray_no_transport {line input : List Byte} {ps : List Payload}
    {r : Option (List Byte)} (h : parseArray line input = (ps, r)) :
    Payload.transportErr ∉ ps := by
  unfold parseArray at h
  split at h
  · injection h with h1 h2
    subst h1
    simp [protocolError]
  · split_ifs at h with h1 h2
    · injection h with h1 h2
      subst h1
      simp [protocolError]
    · injection h with h1 h2
      subst h1
      simp
    · exact parseArrayItems_no_transport _ _ _ _ _ h

theorem parseFuel_terminal :
    ∀ (f : Nat) (input : List Byte), input.length < f →
      ∃ frames, parseFuel f input = frames ++ [Payload.transportErr] ∧
        Payload.transportErr ∉ frames := by
  intro f
  induction f with
  | zero => intro input hf; exact absurd hf (Nat.not_lt_zero _)
  | succ f ih =>
    intro input hf
    rw [parseFuel]
    split
    · exact ⟨[], rfl, by simp⟩
    · rename_i line rest hl
      have hrest := readLine_length hl
      split_ifs
      · exact ih rest (by omega)
      · obtain ⟨frames, hfr, hm⟩ := ih rest (by omega)
        refine ⟨Payload.data (Reply.status ((trimSuffixCRLF line).drop 1)) :: frames, ?_, ?_⟩
        · simp [hfr]
        · simp [hm]
      · obtain ⟨frames, hfr, hm⟩ := ih rest (by omega)
        refine ⟨Payload.data (Reply.err ((trimSuffixCRLF line).drop 1)) :: frames, ?_, ?_⟩
        · simp [hfr]
        · simp [hm]
      · rcases hp : parseIntGo ((trimSuffixCRLF line).drop 1) with _ | i
        · obtain ⟨frames, hfr, hm⟩ := ih rest (by omega)
          refine ⟨protocolError (msgIllegalNumber ++ (trimSuffixCRLF line).drop 1) :: frames,
            ?_, ?_⟩
          · simp [hfr]
          · simp [protocolError, hm]
        · obtain ⟨frames, hfr, hm⟩ := ih rest (by omega)
          refine ⟨Payload.data (Reply.int i) :: frames, ?_, ?_⟩
          · simp [hfr]
          · simp [hm]
      · rcases hb : parseBulkString (trimSuffixCRLF line) rest with ⟨ps, r⟩
        have hnt := parseBulkString_no_transport hb
        rcases r with _ | rest2
        · exact ⟨ps, by simp, hnt⟩
        · have hr2 := parseBulkString_length hb
          obtain ⟨frames, hfr, hm⟩ := ih rest2 (by omega)
          refine ⟨ps ++ frames, ?_, ?_⟩
          · simp only []
            rw [hfr, List.append_assoc]
          · intro hmem
            rcases List.mem_append.mp hmem with h1 | h2
            · exact hnt h1
            · exact hm h2
      · rcases hb : parseArray (trimSuffixCRLF line) rest with ⟨ps, r⟩
        have hnt := parseArray_no_transport hb
        rcases r with _ | rest2
        · exact ⟨ps, by simp, hnt⟩
        · have hr2 := parseArray_length hb
          obtain ⟨frames, hfr, hm⟩ := ih rest2 (by omega)
          refine ⟨ps ++ frames, ?_, ?_⟩
          · simp only []
            rw [hfr, List.append_assoc]
          · intro hmem
            rcases List.mem_append.mp hmem with h1 | h2
            · exact hnt h1
            · exact hm h2
      · exact ih rest (by omega)

/-- Claim C8: over any finite byte source, the decoded payload sequence ends
with exactly one payload carrying the transport error (source exhausted or
truncated read), and no payload after it — the final payload is the transport
error and it occurs exactly once in the whole sequence (protocol errors do
not terminate the stream, the transport error does). -/
theorem C8_transport_error_is_terminal (input : List Byte) :
    (parse input).getLast? = some Payload.transportErr ∧
    (parse input).countP (fun p => decide (p = Payload.transportErr)) = 1 := by
  obtain ⟨frames, hf, hm⟩ :=
    parseFuel_terminal (input.length + 1) input (Nat.lt_succ_self _)
  have hp : parse input = frames ++ [Payload.transportErr] := hf
  rw [hp]
  constructor
  · simp
  · rw [List.countP_append]
    have h1 : frames.countP (fun p => decide (p = Payload.transportErr)) = 0 := by
      rw [List.countP_eq_zero]
      intro a ha
      simp only [decide_eq_true_eq]
      intro he
      exact hm (he ▸ ha)
    rw [h1]
    simp

/-! ## Arrays: encoded sub-frames decode to their bodies (C2, C10) -/

theorem parseArrayItems_step (k : Nat) (acc : List (List Byte)) (lb : List Byte)
    (body : Option (List Byte)) (tailrest : List Byte)
    (hwf : WireBulk.WF ⟨lb, body⟩) :
    parseArrayItems (k + 1) acc (WireBulk.enc ⟨lb, body⟩ ++ tailrest)
      = parseArrayItems k (acc ++ [WireBulk.val ⟨lb, body⟩]) tailrest := by
  cases body with
  | none =>
    have hp : parseIntGo lb = some (-1) := hwf
    have h10 := parseIntGo_no10 hp
    have hne := parseIntGo_ne_nil hp
    have hlb : 0 < lb.length := List.length_pos.mpr hne
    have henc : WireBulk.enc ⟨lb, none⟩ ++ tailrest
        = 36 :: (lb ++ ([13, 10] ++ tailrest)) := by
      simp [WireBulk.enc]
    rw [henc, parseArrayItems]
    rw [readLine_header 36 lb tailrest (by norm_num) h10]
    simp only []
    rw [if_neg (by
      push_neg
      refine ⟨by simp; omega, ?_, by simp⟩
      rw [show (36 :: (lb ++ [13, 10])).length - 2 = lb.length + 1 by simp]
      exact get_line13 36 lb)]
    rw [show ((36 :: (lb ++ [13, 10])).drop 1).take ((36 :: (lb ++ [13, 10])).length - 3)
        = lb by
      rw [show (36 :: (lb ++ [13, 10])).drop 1 = lb ++ [13, 10] from rfl]
      rw [show (36 :: (lb ++ [13, 10])).length - 3 = lb.length by simp]
      rw [List.take_left]]
    rw [hp]
    simp only []
    rw [if_neg (by norm_num)]
    simp [WireBulk.val]
  | some b =>
    have hp : parseIntGo lb = some (b.length : Int) := hwf
    have h10 := parseIntGo_no10 hp
    have hne := parseIntGo_ne_nil hp
    have hlb : 0 < lb.length := List.length_pos.mpr hne
    have henc : WireBulk.enc ⟨lb, some b⟩ ++ tailrest
        = 36 :: (lb ++ ([13, 10] ++ (b ++ ([13, 10] ++ tailrest)))) := by
      simp [WireBulk.enc]
    rw [henc, parseArrayItems]
    rw [readLine_header 36 lb (b ++ ([13, 10] ++ tailrest)) (by norm_num) h10]
    simp only []
    rw [if_neg (by
      push_neg
      refine ⟨by simp; omega, ?_, by simp⟩
      rw [show (36 :: (lb ++ [13, 10])).length - 2 = lb.length + 1 by simp]
      exact get_line13 36 lb)]
    rw [show ((36 :: (lb ++ [13, 10])).drop 1).take ((36 :: (lb ++ [13, 10])).length - 3)
        = lb by
      rw [show (36 :: (lb ++ [13, 10])).drop 1 = lb ++ [13, 10] from rfl]
      rw [show (36 :: (lb ++ [13, 10])).length - 3 = lb.length by simp]
      rw [List.take_left]]
    rw [hp]
    simp only []
    rw [if_neg (by omega), if_neg (by omega)]
    rw [show ((b.length : Int)).toNat + 2 = (b ++ [13, 10]).length by simp]
    rw [show b ++ ([13, 10] ++ tailrest) = (b ++ [13, 10]) ++ tailrest by simp]
    rw [readFull_append]
    simp only []
    rw [show ((b.length : Int)).toNat = b.length by simp]
    rw [List.take_left]
    rfl

theorem parseArrayItems_encItems :
    ∀ (ws : List WireBulk) (extra : Nat) (acc : List (List Byte)) (tail : List Byte),
      (∀ w ∈ ws, w.WF) →
      parseArrayItems (ws.length + extra) acc (encItems ws ++ tail)
        = parseArrayItems extra (acc ++ ws.map WireBulk.val) tail := by
  intro ws
  induction ws with
  | nil =>
    intro extra acc tail _
    simp [encItems]
  | cons w t ih =>
    intro extra acc tail hwf
    obtain ⟨lb, body⟩ := w
    rw [show ((⟨lb, body⟩ : WireBulk) :: t).length + extra = (t.length + extra) + 1 by
      simp
      omega]
    rw [show encItems (⟨lb, body⟩ :: t) ++ tail
        = WireBulk.enc ⟨lb, body⟩ ++ (encItems t ++ tail) by simp [encItems]]
    rw [parseArrayItems_step (t.length + extra) acc lb body _ (hwf _ (by simp))]
    rw [ih extra (acc ++ [WireBulk.val ⟨lb, body⟩]) tail
      (fun x hx => hwf x (List.mem_cons_of_mem _ hx))]
    simp

theorem parseArrayItems_badHeader (k : Nat) (acc : List (List Byte))
    (bl rest : List Byte) (h10 : (10 : Byte) ∉ bl)
    (hbad : badSubHeader (bl ++ [10]) = true) :
    ∃ m, parseArrayItems (k + 1) acc ((bl ++ [10]) ++ rest)
      = ([Payload.protocolErr m, Payload.data (Reply.multiBulk acc)], some rest) := by
  have hrl : readLine ((bl ++ [10]) ++ rest) = some (bl ++ [10], rest) := by
    rw [List.append_assoc]
    exact readLine_append bl rest h10
  rw [parseArrayItems, hrl]
  simp only []
  by_cases hs : (bl ++ [10]).length < 4 ∨
      (bl ++ [10]).get? ((bl ++ [10]).length - 2) ≠ some 13 ∨
      (bl ++ [10]).head? ≠ some 36
  · rw [if_pos hs]
    exact ⟨msgProtocolError ++ (msgIllegalBulkHeader ++ (bl ++ [10])), rfl⟩

  · rw [if_neg hs]
    have hb1 : ¬((bl ++ [10]).length < 4) := fun hc => hs (Or.inl hc)
    have hb2 : ¬((bl ++ [10]).get? ((bl ++ [10]).length - 2) ≠ some 13) :=
      fun hc => hs (Or.inr (Or.inl hc))
    have hb3 : ¬((bl ++ [10]).head? ≠ some 36) := fun hc => hs (Or.inr (Or.inr hc))
    unfold badSubHeader at hbad
    rw [decide_eq_false hb1, decide_eq_false hb2, decide_eq_false hb3] at hbad
    simp only [Bool.false_or] at hbad
    rcases hq : parseIntGo (((bl ++ [10]).drop 1).take ((bl ++ [10]).length - 3))
      with _ | n
    · rw [hq]
      exact ⟨_, rfl⟩
    · rw [hq] at hbad
      simp only [] at hbad
      rw [hq]
      simp only []
      rw [if_pos (by exact of_decide_eq_true hbad)]
      exact ⟨_, rfl⟩

theorem parseArray_pos (cb : List Byte) (n : Int) (input : List Byte)
    (hp : parseIntGo cb = some n) (hn : 0 < n) :
    parseArray (42 :: cb) input = parseArrayItems n.toNat [] input := by
  unfold parseArray
  rw [show (42 :: cb).drop 1 = cb from rfl, hp]
  simp only []
  rw [if_neg (by omega), if_neg (by omega)]

/-- Claim C2 (amended): for an array header `*<count>\r\n` with positive
declared count, when the sub-frames before position `|ws|` are well-formed
and the next sub-frame header line (`bl` + newline) is malformed — missing
`$`, missing CRLF, too short, non-numeric length, or length below −1, as
captured by `badSubHeader` — the decoder emits exactly one protocol-error
frame for the array, then (unlike the original claim) also emits an array
frame containing exactly the sub-frames decoded before the malformed header
(the `break` in `parseArray` falls through to the final channel send), and
resumes parsing at the next line of the same stream. -/
theorem C2_malformed_subheader_partial_array (cb bl rest : List Byte)
    (ws : List WireBulk) (k : Nat)
    (hcb10 : (10 : Byte) ∉ cb)
    (hcount : parseIntGo cb = some ((ws.length + k + 1 : Nat) : Int))
    (hwf : ∀ w ∈ ws, w.WF)
    (hbl10 : (10 : Byte) ∉ bl)
    (hbad : badSubHeader (bl ++ [10]) = true) :
    ∃ m, parse (42 :: (cb ++ ([13, 10] ++ (encItems ws ++ ((bl ++ [10]) ++ rest)))))
      = Payload.protocolErr m
          :: Payload.data (Reply.multiBulk (ws.map WireBulk.val)) :: parse rest := by
  rw [parse_step_array cb (encItems ws ++ ((bl ++ [10]) ++ rest)) hcb10]
  rw [parseArray_pos cb ((ws.length + k + 1 : Nat) : Int) _ hcount (by omega)]
  rw [show (((ws.length + k + 1 : Nat) : Int)).toNat = ws.length + (k + 1) by omega]
  rw [parseArrayItems_encItems ws (k + 1) [] ((bl ++ [10]) ++ rest) hwf]
  obtain ⟨m, hm⟩ :=
    parseArrayItems_badHeader k ([] ++ ws.map WireBulk.val) bl rest hbl10 hbad
  rw [hm]
  exact ⟨m, by simp⟩

/-- Counterexample to C2 as stated: decoding `*1\r\n:5\r\n` (declared count 1,
malformed sub-header `:5`) emits the protocol-error frame but ALSO emits an
array frame (the empty partial array) before resuming — the claim says no
array frame is emitted for the aborted array. -/
theorem C2_counterexample_array_frame_emitted :
    parse [42, 49, 13, 10, 58, 53, 13, 10]
      = [Payload.protocolErr
           (msgProtocolError ++ (msgIllegalBulkHeader ++ [58, 53, 13, 10])),
         Payload.data (Reply.multiBulk []), Payload.transportErr] ∧
    Payload.data (Reply.multiBulk []) ∈ parse [42, 49, 13, 10, 58, 53, 13, 10] := by
  decide

/-- Witness for the amended C2 at the concrete stream `*1\r\n:5\r\n`. -/
theorem C2_malformed_subheader_partial_array_witness :
    ∃ m, parse [42, 49, 13, 10, 58, 53, 13, 10]
      = Payload.protocolErr m
          :: Payload.data (Reply.multiBulk []) :: parse [] :=
  C2_malformed_subheader_partial_array [49] [58, 53, 13] [] [] 0
    (by decide) (by decide) (by simp) (by decide) (by decide)

/-- Claim C10: inside a well-formed array, a `$-1` (null bulk) sub-header is
accepted without reading a body and contributes an empty byte string to the
decoded array frame, the array as a whole decodes successfully, and the
result is indistinguishable from the same array written with any other
well-formed sub-frames carrying the same byte strings (in particular an
explicit `$0` with empty body).  `ws` is the list of sub-frames: a `none`
body is the `$-1` header, and `WireBulk.val` maps it to the empty string. -/
theorem C10_null_bulk_in_array (cb : List Byte) (ws ws2 : List WireBulk)
    (rest : List Byte)
    (hcb10 : (10 : Byte) ∉ cb)
    (hcount : parseIntGo cb = some (ws.length : Int))
    (hpos : 0 < ws.length)
    (hwf : ∀ w ∈ ws, w.WF) :
    parse (42 :: (cb ++ ([13, 10] ++ (encItems ws ++ rest))))
      = Payload.data (Reply.multiBulk (ws.map WireBulk.val)) :: parse rest ∧
    ((∀ w ∈ ws2, w.WF) → ws2.length = ws.length →
      ws2.map WireBulk.val = ws.map WireBulk.val →
      parse (42 :: (cb ++ ([13, 10] ++ (encItems ws2 ++ rest))))
        = parse (42 :: (cb ++ ([13, 10] ++ (encItems ws ++ rest))))) := by
  have main : ∀ (us : List WireBulk), (∀ w ∈ us, w.WF) → us.length = ws.length →
      parse (42 :: (cb ++ ([13, 10] ++ (encItems us ++ rest))))
        = Payload.data (Reply.multiBulk (us.map WireBulk.val)) :: parse rest := by
    intro us huwf hlen
    rw [parse_step_array cb (encItems us ++ rest) hcb10]
    rw [parseArray_pos cb (ws.length : Int) _ hcount (by omega)]
    rw [show ((ws.length : Int)).toNat = us.length + 0 by omega]
    rw [parseArrayItems_encItems us 0 [] rest huwf]
    rw [show parseArrayItems 0 ([] ++ us.map WireBulk.val) rest
        = ([Payload.data (Reply.multiBulk ([] ++ us.map WireBulk.val))], some rest)
        from rfl]
    simp
  refine ⟨main ws hwf rfl, fun hwf2 hlen2 hval2 => ?_⟩
  rw [main ws hwf rfl, main ws2 hwf2 hlen2, hval2]

/-- Witness for C10: `*2\r\n$-1\r\n$3\r\nabc\r\n` decodes to the array
`[[], "abc"]` (the null element contributes the empty byte string), and
replacing the `$-1` element with an explicit `$0` plus empty body
(`*2\r\n$0\r\n\r\n$3\r\nabc\r\n`) decodes to exactly the same output. -/
theorem C10_null_bulk_in_array_witness :
    parse [42, 50, 13, 10, 36, 45, 49, 13, 10, 36, 51, 13, 10, 97, 98, 99, 13, 10]
      = Payload.data (Reply.multiBulk [[], [97, 98, 99]]) :: parse [] ∧
    parse [42, 50, 13, 10, 36, 48, 13, 10, 13, 10, 36, 51, 13, 10, 97, 98, 99, 13, 10]
      = parse [42, 50, 13, 10, 36, 45, 49, 13, 10, 36, 51, 13, 10, 97, 98, 99, 13, 10] := by
  have hwf1 : ∀ w ∈ [(⟨[45, 49], none⟩ : WireBulk), ⟨[51], some [97, 98, 99]⟩], w.WF := by
    intro w hw
    simp only [List.mem_cons, List.not_mem_nil, or_false] at hw
    rcases hw with rfl | rfl
    · exact (by decide : parseIntGo [45, 49] = some (-1))
    · exact (by decide : parseIntGo [51] = some 3)
  have hwf2 : ∀ w ∈ [(⟨[48], some []⟩ : WireBulk), ⟨[51], some [97, 98, 99]⟩], w.WF := by
    intro w hw
    simp only [List.mem_cons, List.not_mem_nil, or_false] at hw
    rcases hw with rfl | rfl
    · exact (by decide : parseIntGo [48] = some 0)
    · exact (by decide : parseIntGo [51] = some 3)
  have h := C10_null_bulk_in_array [50]
    [⟨[45, 49], none⟩, ⟨[51], some [97, 98, 99]⟩]
    [⟨[48], some []⟩, ⟨[51], some [97, 98, 99]⟩] []
    (by decide) (by decide) (by decide) hwf1
  exact ⟨h.1, h.2 hwf2 rfl rfl⟩

/-! ## Claim theorems for the connection handler -/

/-- Counterexample to C3 as stated: a connection whose read loop ends with a
non-EOF read error (`ReadEnd.readFail`) returns from `Handle` with the
session still present in the handler's `activeConn` registry — starting from
an empty registry, the registry equals `[0]` after `Handle` returns, so the
session was not removed. -/
theorem C3_counterexample_session_left_registered :
    (Handle ⟨[], false⟩ 0 [] ReadEnd.readFail).1.activeConn = [0] ∧
    0 ∈ (Handle ⟨[], false⟩ 0 [] ReadEnd.readFail).1.activeConn := by
  decide

/-- Claim C3 (amended): when the handler is not closing and the session is
new, the session is removed from the registry before `Handle` returns only
when the read loop terminates by clean end of stream (`io.EOF`); on any
other read error, `Handle` returns with the session still registered (it is
closed and collected only by the handler-wide `Close` during shutdown). -/
theorem C3_session_removed_only_on_eof (h : HandlerState) (c : Nat)
    (lines : List (List Byte)) (hcl : h.closing = false)
    (hmem : c ∉ h.activeConn) :
    (Handle h c lines ReadEnd.eof).1.activeConn = h.activeConn ∧
    (Handle h c lines ReadEnd.readFail).1.activeConn = c :: h.activeConn := by
  unfold Handle
  rw [hcl]
  simp only [Bool.false_eq_true, if_false]
  constructor
  · unfold unregister register
    rw [if_neg hmem]
    exact List.erase_cons_head c h.activeConn
  · unfold register
    rw [if_neg hmem]

/-- Witness for the amended C3 at a concrete handler state and session. -/
theorem C3_session_removed_only_on_eof_witness :
    (Handle ⟨[], false⟩ 0 [] ReadEnd.eof).1.activeConn = [] ∧
    (Handle ⟨[], false⟩ 0 [] ReadEnd.readFail).1.activeConn = 0 :: [] :=
  C3_session_removed_only_on_eof ⟨[], false⟩ 0 [] rfl (by simp)

end Godis
